import Mathlib

/-!
Verification of the quiz-session engine of `src/bot.py` (a Telegram
multiple-choice quiz bot).  The session state machine, its two question
presentation paths, the answer/timeout resolution handlers and the random
selector are embedded as pure Lean functions.  Randomness (`random.shuffle`,
`random.sample`) is made explicit: a shuffle is realized by an index
permutation `order`, a sample by a list `sel` of chosen positions; theorems
carry the contracts of those library calls as hypotheses.  Outbound chat
messages are modelled structurally by `Msg`, carrying exactly the data the
source interpolates into the text.  Message text formatting labels options
with the letters A..Z; `pyIndex` models Python string indexing, including
negative indices and the IndexError raised outside `[-len, len)`.
-/

namespace QuizBot

/-- A question record (bot.py `Question` dataclass): prompt, options,
index of the correct option, optional explanation.  The loader
(`load_json_block`) guarantees at least 2 options and an in-range
`correct_index` for every question it admits. -/
structure Question where
  q : String
  options : List String
  correct_index : Nat
  explanation : String
  deriving Repr, DecidableEq, Inhabited

/-- The per-question presentation view stored in `session["current"]`:
the shuffled option texts and the index of the correct option inside
that shuffle. -/
structure Current where
  shuffled_opts : List String
  correct_index : Nat
  deriving Repr, DecidableEq

/-- The per-user session dictionary created by `start_session` (bot.py
lines 234-241): title, the fixed question list, `i` (position of the
next/current question), `correct` (score), `qid` (the sequence id,
incremented at every presentation) and the optional `current` view. -/
structure Session where
  title : String
  questions : List Question
  i : Nat
  correct : Nat
  qid : Nat
  current : Option Current
  deriving Repr, DecidableEq

/-- Outbound messages, modelled structurally.  Each constructor stands for
one `send_message`/`reply_text` call site of bot.py and carries the data the
source interpolates into the message text. -/
inductive Msg where
  /-- "Це питання вже не активне." (stale answer notice, line 474) -/
  | staleNotice
  /-- "Сесія не активна. /start" (line 466) -/
  | noSession
  /-- "Немає питань у цьому блоці." (line 444) -/
  | noQuestionsNotice
  /-- "Починаємо тест…" (lines 447, 458) -/
  | startingNotice
  /-- "✅ Правильно! (…)" with the correct letter and text (line 487) -/
  | correctNotice (letter : Char) (text : String)
  /-- "❌ Неправильно. …" with chosen letter/text and correct letter/text (line 490) -/
  | incorrectNotice (chosenLetter : Char) (chosen : String) (correctLetter : Char) (text : String)
  /-- "⏰ Час вичерпано. …" with the correct letter and text (line 314) -/
  | timeUp (letter : Char) (text : String)
  /-- "➡️ Наступне питання…" (line 322) -/
  | nextQuestion
  /-- A presented question (lines 285, 376): title, 1-based position, total,
  prompt, shuffled options, and the qid carried by its answer buttons. -/
  | questionMsg (title : String) (pos total : Nat) (prompt : String)
      (opts : List String) (qid : Nat)
  /-- "🏁 Тест завершено! ✅ correct/total (pct%)" (lines 342, 392) -/
  | finished (correct total : Nat) (pct : ℚ)
  deriving Repr, DecidableEq

/-- The option-label alphabet `letters = "ABCDEFGHIJKLMNOPQRSTUVWXYZ"`. -/
def lettersList : List Char := "ABCDEFGHIJKLMNOPQRSTUVWXYZ".toList

/-- Python string indexing `s[i]`: non-negative indices below the length,
negative indices counting from the end; anything else raises IndexError
(modelled as `none`). -/
def pyIndex (s : List Char) (i : Int) : Option Char :=
  if 0 ≤ i ∧ i < (s.length : Int) then s.get? i.toNat
  else if -(s.length : Int) ≤ i ∧ i < 0 then s.get? (s.length - (-i).toNat)
  else none

/-- Python `list.index(a)` / first index of `a` in `l`.  The source only
calls it when `a` is a member (a shuffle of a list containing `a`), so the
ValueError branch is unreachable; on a non-member this returns `l.length`. -/
def pyListIndex [DecidableEq α] (a : α) : List α → Nat
  | [] => 0
  | b :: l => if b = a then 0 else pyListIndex a l + 1

/-- Occurrence count of `a` in a list (used to phrase duplicate-text
hypotheses about option lists). -/
def countEq [DecidableEq α] (a : α) : List α → Nat
  | [] => 0
  | b :: l => (if b = a then 1 else 0) + countEq a l

/-- Result of an in-place `random.shuffle` realized by the index list
`order`: element `j` of the output is `xs[order[j]]`.  Also the literal
translation of `[q.options[j] for j in order]` (line 358). -/
def applyPerm (order : List Nat) (xs : List String) : List String :=
  order.map (fun j => xs.getD j "")

/-- Banker's rounding of a rational to the nearest integer, the behavior of
Python `round` at ties. -/
def roundHalfEven (x : ℚ) : ℤ :=
  if x - ⌊x⌋ < 1 / 2 then ⌊x⌋
  else if x - ⌊x⌋ > 1 / 2 then ⌊x⌋ + 1
  else if ⌊x⌋ % 2 = 0 then ⌊x⌋ else ⌊x⌋ + 1

/-- Python `round(x, 1)` over the rationals. -/
def pyRound1 (x : ℚ) : ℚ := (roundHalfEven (x * 10) : ℚ) / 10

/-- `pct = round(100.0 * correct / total, 1) if total else 0.0`
(bot.py lines 341 and 391). -/
def finish_pct (correct total : Nat) : ℚ :=
  if total ≠ 0 then pyRound1 ((100 * correct : ℚ) / total) else 0

/-- bot.py `FINAL_N = 20`. -/
def FINAL_N : Nat := 20

/-- bot.py `PER_QUESTION_SECONDS = 60`. -/
def PER_QUESTION_SECONDS : Nat := 60

/-- `random.sample(xs, k)` realized by the list `sel` of chosen positions
(the randomness).  The library contract for `sel` is `SampleSel`. -/
def sample (xs : List Question) (k : Nat) (sel : List Nat) : List Question :=
  let _ := k
  sel.map (fun j => xs.getD j default)

/-- The contract of `random.sample(xs, k)`: the realizing positions are `k`
pairwise-distinct in-range indices of `xs`. -/
def SampleSel (xs : List Question) (k : Nat) (sel : List Nat) : Prop :=
  sel.Nodup ∧ sel.length = k ∧ ∀ j ∈ sel, j < xs.length

instance (xs : List Question) (k : Nat) (sel : List Nat) :
    Decidable (SampleSel xs k sel) := by
  unfold SampleSel; infer_instance

/-- bot.py `pick_random(questions, n)` (lines 133-136): sample all of
`questions` when `n >= len(questions)`, else sample `n` of them. -/
def pick_random (questions : List Question) (n : Nat) (sel : List Nat) : List Question :=
  if n ≥ questions.length then sample questions questions.length sel
  else sample questions n sel

/-- bot.py `start_session` (lines 234-241): fresh session dictionary with
`i = 0`, `correct = 0`, `qid = 0` and no current question. -/
def start_session (title : String) (questions : List Question) : Session :=
  { title := title, questions := questions, i := 0, correct := 0, qid := 0,
    current := none }

/-- bot.py `finish_session` (lines 384-393): emit the summary and pop the
session.  The timer cancellation it performs has no observable session
field. -/
def finish_session (s : Session) : Option Session × List Msg :=
  (none, [Msg.finished s.correct s.questions.length
            (finish_pct s.correct s.questions.length)])

/-- bot.py `send_question` (lines 243-290), the presentation path used after
an answer and at session start.  If the position is past the end it calls
`finish_session`.  Otherwise it shuffles the option texts in place (realized
by `order`), locates the correct option BY TEXT with `list.index`
(first occurrence), stores `current`, increments `qid` and emits the
question.  Timer bookkeeping has no observable session field and option
lists longer than the 26-letter label alphabet (which the source cannot
format) are outside this model. -/
def send_question (s : Session) (order : List Nat) : Option Session × List Msg :=
  if s.i ≥ s.questions.length then finish_session s
  else
    let q := s.questions.getD s.i default
    let correct_text := q.options.getD q.correct_index ""
    let shuffled_opts := applyPerm order q.options
    let correct_new_index := pyListIndex correct_text shuffled_opts
    (some { s with current := some ⟨shuffled_opts, correct_new_index⟩,
                   qid := s.qid + 1 },
     [Msg.questionMsg s.title (s.i + 1) s.questions.length q.q shuffled_opts
        (s.qid + 1)])

/-- bot.py `send_question_direct` (lines 326-382), the presentation path used
after a timeout.  The finish branch inlines the summary (lines 336-344).
Otherwise it shuffles an index list `order = list(range(len(q.options)))`,
maps it over the options, and locates the correct option BY POSITION with
`order.index(q.correct_index)`. -/
def send_question_direct (s : Session) (order : List Nat) : Option Session × List Msg :=
  if s.i ≥ s.questions.length then
    (none, [Msg.finished s.correct s.questions.length
              (finish_pct s.correct s.questions.length)])
  else
    let q := s.questions.getD s.i default
    let shuffled_opts := applyPerm order q.options
    let correct_new_index := pyListIndex q.correct_index order
    (some { s with current := some ⟨shuffled_opts, correct_new_index⟩,
                   qid := s.qid + 1 },
     [Msg.questionMsg s.title (s.i + 1) s.questions.length q.q shuffled_opts
        (s.qid + 1)])

/-- `cur = session.get("current") or {}; opts = cur.get("shuffled_opts") or []`. -/
def currentOpts (s : Session) : List String :=
  match s.current with
  | some c => c.shuffled_opts
  | none => []

/-- `ci = int(cur.get("correct_index", 0))` with `cur` as above. -/
def currentCi (s : Session) : Nat :=
  match s.current with
  | some c => c.correct_index
  | none => 0

/-- Outcome of running one python handler: `ok` for normal completion with
the resulting stored session (`none` when the session was popped), `err`
for an IndexError escaping the handler — the session dictionary keeps the
mutations made before the raise, and the messages already sent. -/
inductive HandlerResult where
  | ok (s : Option Session) (msgs : List Msg)
  | err (s : Session) (msgs : List Msg)
  deriving Repr, DecidableEq

/-- `correct_text = opts[ci] if 0 <= ci < len(opts) else ""` (lines 313, 483). -/
def resolveCorrectText (s : Session) : String :=
  if currentCi s < (currentOpts s).length then (currentOpts s).getD (currentCi s) ""
  else ""

/-- `chosen = opts[idx] if 0 <= idx < len(opts) else ""` (line 489). -/
def resolveChosenText (s : Session) (idx : Int) : String :=
  if 0 ≤ idx ∧ idx < ((currentOpts s).length : Int) then (currentOpts s).getD idx.toNat ""
  else ""

/-- The `ans|qid|idx` branch of bot.py `on_callback` (lines 462-496), for a
user that has a session.  `eqid` and `idx` are the integers parsed from the
callback data.  Stale qid: reply with the stale notice and return.  Matched:
if `idx == ci` increment the score and emit the correct notice, else emit
the incorrect notice (the chosen text is guarded, the letter lookups are
not — `letters[idx]` raises IndexError outside `[-26, 26)`); then advance
`i` and present the next question via `send_question`. -/
def answer_event (s : Session) (eqid idx : Int) (order : List Nat) : HandlerResult :=
  if eqid ≠ (s.qid : Int) then .ok (some s) [Msg.staleNotice]
  else if idx = (currentCi s : Int) then
    match pyIndex lettersList (currentCi s : Int) with
    | some c =>
      HandlerResult.ok
        (send_question { s with correct := s.correct + 1, i := s.i + 1 } order).1
        (Msg.correctNotice c (resolveCorrectText s) ::
          (send_question { s with correct := s.correct + 1, i := s.i + 1 } order).2)
    | none => .err { s with correct := s.correct + 1 } []
  else
    match pyIndex lettersList idx, pyIndex lettersList (currentCi s : Int) with
    | some cx, some cc =>
      HandlerResult.ok (send_question { s with i := s.i + 1 } order).1
        (Msg.incorrectNotice cx (resolveChosenText s idx) cc (resolveCorrectText s) ::
          (send_question { s with i := s.i + 1 } order).2)
    | _, _ => .err s []

/-- bot.py `timeout_question` (lines 292-324), for a user that has a
session.  `eqid` is the qid stored in the job data when the timer was
armed.  Stale qid: silent return.  Matched: emit the time-up notice
(`letters[ci]` raises IndexError for `ci ≥ 26`), advance `i`, emit the
next-question notice and present via `send_question_direct`. -/
def timeout_event (s : Session) (eqid : Nat) (order : List Nat) : HandlerResult :=
  if eqid ≠ s.qid then .ok (some s) []
  else
    match pyIndex lettersList (currentCi s : Int) with
    | some c =>
      HandlerResult.ok (send_question_direct { s with i := s.i + 1 } order).1
        (Msg.timeUp c (resolveCorrectText s) :: Msg.nextQuestion ::
          (send_question_direct { s with i := s.i + 1 } order).2)
    | none => .err s []

/-- The `start|block|mode` branch of `on_callback` (lines 440-449): an empty
question list only yields the no-questions notice, leaving any prior session
untouched; otherwise a fresh session is created and the first question is
presented. -/
def start_block (prior : Option Session) (title : String) (questions : List Question)
    (order : List Nat) : Option Session × List Msg :=
  if questions.isEmpty then (prior, [Msg.noQuestionsNotice])
  else
    let s := start_session title questions
    ((send_question s order).1, Msg.startingNotice :: (send_question s order).2)

/-- The `startfile|subfile|mode` branch of `on_callback` (lines 451-460):
only the existence of the subblock file is checked, not the question count;
a session is always created and the first question is presented. -/
def start_file (title : String) (questions : List Question)
    (order : List Nat) : Option Session × List Msg :=
  let s := start_session title questions
  ((send_question s order).1, Msg.startingNotice :: (send_question s order).2)

/-- A resolve event delivered to one user's handlers: an answer tap
(`ans|eqid|idx`, with the shuffle `order` the next presentation would use)
or a timer firing with the armed `eqid`. -/
inductive Event where
  | answer (eqid idx : Int) (order : List Nat)
  | timeout (eqid : Nat) (order : List Nat)
  deriving Repr, DecidableEq

/-- Dispatch of one event against the stored session.  With no session the
answer path replies with the no-session notice and the timeout path returns
silently (lines 465-467 and 302-304).  An escaping IndexError leaves the
mutated session in the store. -/
def stepEvent : Option Session → Event → Option Session × List Msg
  | none, .answer _ _ _ => (none, [Msg.noSession])
  | none, .timeout _ _ => (none, [])
  | some s, .answer eqid idx order =>
    match answer_event s eqid idx order with
    | .ok os msgs => (os, msgs)
    | .err s1 msgs => (some s1, msgs)
  | some s, .timeout eqid order =>
    match timeout_event s eqid order with
    | .ok os msgs => (os, msgs)
    | .err s1 msgs => (some s1, msgs)

/-- Run a list of events through the store, concatenating all emitted
messages. -/
def run : Option Session → List Event → Option Session × List Msg
  | os, [] => (os, [])
  | os, e :: es =>
    ((run (stepEvent os e).1 es).1, (stepEvent os e).2 ++ (run (stepEvent os e).1 es).2)

/-- The sequence ids of the questions presented within a message list, in
emission order (each presentation's buttons carry its qid). -/
def presentedQids (msgs : List Msg) : List Nat :=
  msgs.filterMap (fun m =>
    match m with
    | Msg.questionMsg _ _ _ _ _ pqid => some pqid
    | _ => none)

/-- The session-store lower bound used to chain qid monotonicity through a
run: every stored session has qid at least `b`. -/
def QidLB (os : Option Session) (b : Nat) : Prop :=
  ∀ s : Session, os = some s → b ≤ s.qid

/-- The state-machine invariant of claim C6: the score never exceeds the
position, which never exceeds the question count. -/
def Inv (s : Session) : Prop :=
  s.correct ≤ s.i ∧ s.i ≤ s.questions.length

/-- The question at the session's position (`questions[i]`). -/
def qAt (s : Session) : Question := s.questions.getD s.i default

/-! Concrete inputs used by counterexamples and witnesses. -/

/-- A session on its second presentation (`qid = 2`). -/
def exStale : Session :=
  { title := "t", questions := [⟨"p", ["x", "y"], 0, ""⟩], i := 0, correct := 0,
    qid := 2, current := some ⟨["x", "y"], 0⟩ }

/-- A one-question session whose question has duplicate option texts and
correct index 1. -/
def dupSession : Session :=
  { title := "t", questions := [⟨"p", ["A", "A"], 1, ""⟩], i := 0, correct := 0,
    qid := 0, current := none }

/-- A live two-question session awaiting an answer for `qid = 1`. -/
def exLive : Session :=
  { title := "t", questions := [⟨"p", ["x", "y"], 0, ""⟩, ⟨"p2", ["x", "y"], 1, ""⟩],
    i := 0, correct := 0, qid := 1, current := some ⟨["x", "y"], 0⟩ }

/-- A session whose question list is empty. -/
def exEmpty : Session :=
  { title := "t", questions := [], i := 0, correct := 0, qid := 0, current := none }

/-- A three-question pool. -/
def exPool : List Question :=
  [⟨"p0", ["x", "y"], 0, ""⟩, ⟨"p1", ["x", "y"], 1, ""⟩, ⟨"p2", ["x", "y"], 0, ""⟩]

/-! Helper lemmas about lists, `pyListIndex`, `countEq` and `applyPerm`. -/

theorem getD_of_lt (l : List α) (d : α) {i : Nat} (h : i < l.length) :
    l.getD i d = l.get ⟨i, h⟩ := by
  simp [List.getD_eq_getElem?_getD, List.getElem?_eq_getElem h]

theorem map_getD_range (xs : List α) (d : α) :
    (List.range xs.length).map (fun j => xs.getD j d) = xs := by
  apply List.ext_getElem
  · simp
  · intro i h1 h2
    have hi : i < xs.length := by simpa using h2
    simp [getD_of_lt xs d hi, List.getElem?_eq_getElem hi]

theorem perm_map_getD {order : List Nat} {xs : List α} (d : α)
    (h : order.Perm (List.range xs.length)) :
    (order.map (fun j => xs.getD j d)).Perm xs := by
  have h2 := h.map (fun j => xs.getD j d)
  rwa [map_getD_range xs d] at h2

theorem applyPerm_perm {order : List Nat} {xs : List String}
    (h : order.Perm (List.range xs.length)) : (applyPerm order xs).Perm xs :=
  perm_map_getD "" h

theorem pyListIndex_lt_length [DecidableEq α] {a : α} {l : List α} (h : a ∈ l) :
    pyListIndex a l < l.length := by
  induction l with
  | nil => cases h
  | cons b t ih =>
    by_cases hb : b = a
    · simp [pyListIndex, hb]
    · have ht : a ∈ t := by
        cases List.mem_cons.1 h with
        | inl h1 => exact absurd h1.symm hb
        | inr h1 => exact h1
      simpa [pyListIndex, hb] using ih ht

theorem getD_pyListIndex [DecidableEq α] (d : α) {a : α} {l : List α} (h : a ∈ l) :
    l.getD (pyListIndex a l) d = a := by
  induction l with
  | nil => cases h
  | cons b t ih =>
    by_cases hb : b = a
    · simp [pyListIndex, hb]
    · have ht : a ∈ t := by
        cases List.mem_cons.1 h with
        | inl h1 => exact absurd h1.symm hb
        | inr h1 => exact h1
      simpa [pyListIndex, hb] using ih ht

theorem countEq_eq_zero_iff [DecidableEq α] {a : α} {l : List α} :
    countEq a l = 0 ↔ a ∉ l := by
  induction l with
  | nil => simp [countEq]
  | cons b t ih =>
    by_cases hb : b = a
    · simp [countEq, hb]
    · simp [countEq, hb, ih, Ne.symm hb]

theorem countEq_perm [DecidableEq α] {l1 l2 : List α} (h : l1.Perm l2) (a : α) :
    countEq a l1 = countEq a l2 := by
  induction h with
  | nil => rfl
  | cons x _ ih => simp [countEq, ih]
  | swap x y l => simp [countEq]; omega
  | trans _ _ ih1 ih2 => exact ih1.trans ih2

theorem pyListIndex_eq_of_countEq_one [DecidableEq α] {a : α} {l : List α} {k : Nat}
    (h1 : countEq a l = 1) (hk : k < l.length) (ha : l.get ⟨k, hk⟩ = a) :
    pyListIndex a l = k := by
  induction l generalizing k with
  | nil => cases hk
  | cons b t ih =>
    by_cases hb : b = a
    · have ht : countEq a t = 0 := by
        simp [countEq, hb] at h1
        omega
      have hnot : a ∉ t := countEq_eq_zero_iff.1 ht
      cases k with
      | zero => simp [pyListIndex, hb]
      | succ j =>
        exfalso
        apply hnot
        have : t.get ⟨j, by simpa using hk⟩ = a := by simpa using ha
        exact this ▸ t.get_mem _ _
    · have ht : countEq a t = 1 := by
        simp [countEq, hb] at h1
        omega
      cases k with
      | zero => exact absurd (by simpa using ha) hb
      | succ j =>
        have hj : j < t.length := by simpa using hk
        have := ih ht hj (by simpa using ha)
        simp [pyListIndex, hb, this]

/-! Characterizations of the two presentation paths. -/

theorem send_question_finish (s : Session) (order : List Nat)
    (h : s.questions.length ≤ s.i) :
    send_question s order =
      (none, [Msg.finished s.correct s.questions.length
                (finish_pct s.correct s.questions.length)]) := by
  unfold send_question finish_session
  rw [if_pos h]

theorem send_question_present (s : Session) (order : List Nat)
    (h : s.i < s.questions.length) :
    send_question s order =
      (some { s with
                current := some ⟨applyPerm order (qAt s).options,
                  pyListIndex ((qAt s).options.getD (qAt s).correct_index "")
                    (applyPerm order (qAt s).options)⟩,
                qid := s.qid + 1 },
       [Msg.questionMsg s.title (s.i + 1) s.questions.length (qAt s).q
          (applyPerm order (qAt s).options) (s.qid + 1)]) := by
  unfold send_question qAt
  rw [if_neg (by omega)]

theorem send_question_direct_finish (s : Session) (order : List Nat)
    (h : s.questions.length ≤ s.i) :
    send_question_direct s order =
      (none, [Msg.finished s.correct s.questions.length
                (finish_pct s.correct s.questions.length)]) := by
  unfold send_question_direct
  rw [if_pos h]

theorem send_question_direct_present (s : Session) (order : List Nat)
    (h : s.i < s.questions.length) :
    send_question_direct s order =
      (some { s with
                current := some ⟨applyPerm order (qAt s).options,
                  pyListIndex (qAt s).correct_index order⟩,
                qid := s.qid + 1 },
       [Msg.questionMsg s.title (s.i + 1) s.questions.length (qAt s).q
          (applyPerm order (qAt s).options) (s.qid + 1)]) := by
  unfold send_question_direct qAt
  rw [if_neg (by omega)]

/-- C1 counterexample: a resolve-by-answer whose carried sequence id (1)
differs from the session's current one (2) leaves every session field
unchanged but DOES emit a message (the stale-question notice of bot.py
line 474), so the operation is not message-free as claimed. -/
theorem C1_counterexample :
    answer_event exStale 1 0 [] = HandlerResult.ok (some exStale) [Msg.staleNotice] ∧
    [Msg.staleNotice] ≠ ([] : List Msg) := by
  constructor
  · rfl
  · intro h
    cases h

/-- C1 (amended): a resolve event whose carried sequence id differs from the
session's current one changes no session field on either path; the timeout
path emits nothing, while the answer path emits exactly the stale-question
notice (which names no score). -/
theorem C1_stale_resolve_no_state_change (s : Session) (eqid idx : Int)
    (tqid : Nat) (order order2 : List Nat)
    (h1 : eqid ≠ (s.qid : Int)) (h2 : tqid ≠ s.qid) :
    answer_event s eqid idx order = HandlerResult.ok (some s) [Msg.staleNotice] ∧
    timeout_event s tqid order2 = HandlerResult.ok (some s) [] := by
  constructor
  · unfold answer_event
    rw [if_pos h1]
  · unfold timeout_event
    rw [if_pos h2]

/-- C1 witness: the amended statement applied to the concrete stale events
of the counterexample's session. -/
theorem C1_stale_resolve_no_state_change_witness :
    answer_event exStale 1 0 [] = HandlerResult.ok (some exStale) [Msg.staleNotice] ∧
    timeout_event exStale 1 [] = HandlerResult.ok (some exStale) [] :=
  C1_stale_resolve_no_state_change exStale 1 0 1 [] [] (by decide) (by decide)

/-- C4 counterexample: starting a subblock-file session on an empty question
list does not surface the no-questions notice; bot.py lines 451-460 create
the session unconditionally, and presenting immediately finishes it with a
0/0 summary. -/
theorem C4_counterexample :
    start_file "t" [] [] = (none, [Msg.startingNotice, Msg.finished 0 0 0]) ∧
    Msg.noQuestionsNotice ∉ [Msg.startingNotice, Msg.finished 0 0 0] := by
  constructor
  · rfl
  · decide

/-- C4 (amended): on the block-start path an empty eligible list yields only
the no-questions notice and the session store is left unchanged (no session
created); the subblock-file path performs no emptiness check — it creates a
session, immediately finishes it with a 0/0 summary (percentage 0.0), and
destroys it, emitting no no-questions notice. -/
theorem C4_empty_start_behavior (prior : Option Session) (title1 title2 : String)
    (order order2 : List Nat) :
    start_block prior title1 [] order = (prior, [Msg.noQuestionsNotice]) ∧
    start_file title2 [] order2 = (none, [Msg.startingNotice, Msg.finished 0 0 0]) := by
  exact ⟨rfl, rfl⟩

/-- C9 evaluation at the failing input: with a live 2-option question
(`qid = 1`) the answer callback `ans|1|26` hits `letters[26]` and raises
IndexError (modelled `err`): no notice is emitted and no session field —
in particular the position — changes, although 26 is exactly a chosen
index outside `[0, len(options))` that the claim says is handled as an
incorrect answer. -/
theorem C9_out_of_alphabet_index_raises :
    answer_event exLive 1 26 [] = HandlerResult.err exLive [] ∧
    ¬(0 ≤ (26 : Int) ∧ (26 : Int) < ((currentOpts exLive).length : Int)) := by
  constructor
  · rfl
  · decide

/-- C10: for a session whose question list is empty, each summary path is
total: the guard `if total` short-circuits the division, the reported
percentage is 0, and the session is popped (result `none`). -/
theorem C10_empty_finish_total (s : Session) (order order2 : List Nat)
    (h : s.questions = []) :
    send_question s order = (none, [Msg.finished s.correct 0 0]) ∧
    send_question_direct s order2 = (none, [Msg.finished s.correct 0 0]) ∧
    finish_session s = (none, [Msg.finished s.correct 0 0]) ∧
    finish_pct s.correct 0 = 0 := by
  have hlen : s.questions.length = 0 := by rw [h]; rfl
  have hpct : finish_pct s.correct 0 = 0 := by
    unfold finish_pct
    rw [if_neg (by omega)]
  refine ⟨?_, ?_, ?_, hpct⟩
  · rw [send_question_finish s order (by omega), hlen, hpct]
  · rw [send_question_direct_finish s order2 (by omega), hlen, hpct]
  · unfold finish_session
    rw [hlen, hpct]

/-- C10 witness: the theorem applied to a concrete empty-question session. -/
theorem C10_empty_finish_total_witness :
    send_question exEmpty [] = (none, [Msg.finished 0 0 0]) :=
  (C10_empty_finish_total exEmpty [] [] rfl).1

theorem applyPerm_getD_pyListIndex {order : List Nat} {xs : List String} {ci : Nat}
    (hperm : order.Perm (List.range xs.length)) (hci : ci < xs.length) :
    (applyPerm order xs).getD (pyListIndex ci order) "" = xs.getD ci "" := by
  have hmem : ci ∈ order := hperm.mem_iff.2 (List.mem_range.2 hci)
  have hk : pyListIndex ci order < order.length := pyListIndex_lt_length hmem
  have hk2 : pyListIndex ci order < (applyPerm order xs).length := by
    simpa [applyPerm] using hk
  rw [getD_of_lt _ _ hk2]
  have hordk : order.getD (pyListIndex ci order) 0 = ci := getD_pyListIndex 0 hmem
  rw [getD_of_lt _ _ hk] at hordk
  calc (applyPerm order xs).get ⟨pyListIndex ci order, hk2⟩
      = xs.getD (order.get ⟨pyListIndex ci order, hk⟩) "" := by
        simp [applyPerm]
    _ = xs.getD ci "" := by rw [hordk]

theorem send_question_some_fields {s : Session} {order : List Nat} {s1 : Session}
    (h : (send_question s order).1 = some s1) :
    s.i < s.questions.length ∧ s1.title = s.title ∧ s1.questions = s.questions ∧
    s1.i = s.i ∧ s1.correct = s.correct ∧ s1.qid = s.qid + 1 ∧
    s1.current = some ⟨applyPerm order (qAt s).options,
      pyListIndex ((qAt s).options.getD (qAt s).correct_index "")
        (applyPerm order (qAt s).options)⟩ := by
  by_cases hlt : s.i < s.questions.length
  · rw [send_question_present s order hlt] at h
    simp only [Option.some.injEq] at h
    subst h
    exact ⟨hlt, rfl, rfl, rfl, rfl, rfl, rfl⟩
  · rw [send_question_finish s order (by omega)] at h
    cases h

theorem send_question_direct_some_fields {s : Session} {order : List Nat} {s1 : Session}
    (h : (send_question_direct s order).1 = some s1) :
    s.i < s.questions.length ∧ s1.title = s.title ∧ s1.questions = s.questions ∧
    s1.i = s.i ∧ s1.correct = s.correct ∧ s1.qid = s.qid + 1 ∧
    s1.current = some ⟨applyPerm order (qAt s).options,
      pyListIndex (qAt s).correct_index order⟩ := by
  by_cases hlt : s.i < s.questions.length
  · rw [send_question_direct_present s order hlt] at h
    simp only [Option.some.injEq] at h
    subst h
    exact ⟨hlt, rfl, rfl, rfl, rfl, rfl, rfl⟩
  · rw [send_question_direct_finish s order (by omega)] at h
    cases h

/-- C2: on both presentation paths, the stored shuffled option list is a
permutation of the presented question's options, and the option text at the
stored correct index equals the question's original correct option text. -/
theorem C2_shuffle_correctness (s : Session) (q : Question) (order : List Nat)
    (s1 s2 : Session) (cur1 cur2 : Current)
    (hq : qAt s = q)
    (hperm : order.Perm (List.range q.options.length))
    (hci : q.correct_index < q.options.length)
    (h1 : (send_question s order).1 = some s1) (hc1 : s1.current = some cur1)
    (h2 : (send_question_direct s order).1 = some s2) (hc2 : s2.current = some cur2) :
    cur1.shuffled_opts.Perm q.options ∧
    cur1.shuffled_opts.getD cur1.correct_index "" = q.options.getD q.correct_index "" ∧
    cur2.shuffled_opts.Perm q.options ∧
    cur2.shuffled_opts.getD cur2.correct_index "" = q.options.getD q.correct_index "" := by
  subst hq
  obtain ⟨-, -, -, -, -, -, hcur1⟩ := send_question_some_fields h1
  obtain ⟨-, -, -, -, -, -, hcur2⟩ := send_question_direct_some_fields h2
  rw [hcur1] at hc1
  rw [hcur2] at hc2
  cases hc1
  cases hc2
  have hpermS := applyPerm_perm hperm
  have hmemO : (qAt s).options.getD (qAt s).correct_index "" ∈ (qAt s).options := by
    rw [getD_of_lt _ _ hci]
    exact List.get_mem _ _ _
  have hmemS : (qAt s).options.getD (qAt s).correct_index ""
      ∈ applyPerm order (qAt s).options := hpermS.mem_iff.2 hmemO
  exact ⟨hpermS, getD_pyListIndex "" hmemS, hpermS,
    applyPerm_getD_pyListIndex hperm hci⟩

/-- C2 witness: both paths applied to a concrete live session with options
`["x", "y"]`, correct index 0, and the swap shuffle. -/
theorem C2_shuffle_correctness_witness :
    (["y", "x"] : List String).Perm ["x", "y"] ∧
    (["y", "x"] : List String).getD 1 "" = (["x", "y"] : List String).getD 0 "" ∧
    (["y", "x"] : List String).Perm ["x", "y"] ∧
    (["y", "x"] : List String).getD 1 "" = (["x", "y"] : List String).getD 0 "" :=
  C2_shuffle_correctness exLive ⟨"p", ["x", "y"], 0, ""⟩ [1, 0]
    { exLive with current := some ⟨["y", "x"], 1⟩, qid := 2 }
    { exLive with current := some ⟨["y", "x"], 1⟩, qid := 2 }
    ⟨["y", "x"], 1⟩ ⟨["y", "x"], 1⟩
    rfl (by decide) (by decide) rfl rfl rfl rfl

/-- C3 counterexample: `send_question` locates the correct option by text,
not by position identity.  For the question with options `["A", "A"]` and
correct index 1, under the identity shuffle `[0, 1]` the originally-correct
option sits at shuffle position 1 (`pyListIndex 1 [0, 1] = 1`), but the
stored correct index is 0 — the first occurrence of the duplicate text. -/
theorem C3_counterexample :
    ((send_question dupSession [0, 1]).1.bind Session.current).map Current.correct_index
      = some 0 ∧
    pyListIndex (1 : Nat) [0, 1] = 1 ∧ (0 : Nat) ≠ 1 := by
  refine ⟨rfl, rfl, ?_⟩
  decide

/-- C3 (amended): `send_question_direct` always locates the correct option by
position identity (the stored index is the shuffle position of the original
correct index); `send_question` matches by text equality, which coincides
with position identity only when the correct option's text occurs exactly
once among the question's options. -/
theorem C3_position_identity (s : Session) (q : Question) (order : List Nat)
    (s1 s2 : Session) (cur1 cur2 : Current)
    (hq : qAt s = q)
    (hperm : order.Perm (List.range q.options.length))
    (hci : q.correct_index < q.options.length)
    (huniq : countEq (q.options.getD q.correct_index "") q.options = 1)
    (h1 : (send_question s order).1 = some s1) (hc1 : s1.current = some cur1)
    (h2 : (send_question_direct s order).1 = some s2) (hc2 : s2.current = some cur2) :
    cur1.correct_index = pyListIndex q.correct_index order ∧
    cur2.correct_index = pyListIndex q.correct_index order := by
  subst hq
  obtain ⟨-, -, -, -, -, -, hcur1⟩ := send_question_some_fields h1
  obtain ⟨-, -, -, -, -, -, hcur2⟩ := send_question_direct_some_fields h2
  rw [hcur1] at hc1
  rw [hcur2] at hc2
  cases hc1
  cases hc2
  refine ⟨?_, rfl⟩
  have hpermS := applyPerm_perm hperm
  have hcount : countEq ((qAt s).options.getD (qAt s).correct_index "")
      (applyPerm order (qAt s).options) = 1 := by
    rw [countEq_perm hpermS]
    exact huniq
  have hmem : (qAt s).correct_index ∈ order := hperm.mem_iff.2 (List.mem_range.2 hci)
  have hk : pyListIndex (qAt s).correct_index order < order.length :=
    pyListIndex_lt_length hmem
  have hk2 : pyListIndex (qAt s).correct_index order
      < (applyPerm order (qAt s).options).length := by
    simpa [applyPerm] using hk
  apply pyListIndex_eq_of_countEq_one hcount hk2
  have := applyPerm_getD_pyListIndex hperm hci
  rwa [getD_of_lt _ _ hk2] at this

/-- C3 witness: the amended statement applied to a concrete question with
unique option texts and the swap shuffle: both stored indices equal the
original correct option's shuffle position. -/
theorem C3_position_identity_witness :
    (1 : Nat) = pyListIndex (0 : Nat) [1, 0] ∧
    (1 : Nat) = pyListIndex (0 : Nat) [1, 0] :=
  C3_position_identity exLive ⟨"p", ["x", "y"], 0, ""⟩ [1, 0]
    { exLive with current := some ⟨["y", "x"], 1⟩, qid := 2 }
    { exLive with current := some ⟨["y", "x"], 1⟩, qid := 2 }
    ⟨["y", "x"], 1⟩ ⟨["y", "x"], 1⟩
    rfl (by decide) (by decide) (by decide) rfl rfl rfl rfl

/-- C5: the score is incremented exactly once per question resolved by an
answer matching the stored correct index (never on a stale event, a wrong
answer, a timeout, a presentation or an escaping IndexError), and it is
never decremented by any operation; a fresh session starts at 0. -/
theorem C5_score_increments (s : Session) (eqid idx : Int) (tqid : Nat)
    (order order2 : List Nat) :
    (∀ s1 msgs, answer_event s eqid idx order = HandlerResult.ok (some s1) msgs →
      s.correct ≤ s1.correct ∧ s1.correct ≤ s.correct + 1 ∧
        (s1.correct = s.correct + 1 ↔ eqid = (s.qid : Int) ∧ idx = (currentCi s : Int))) ∧
    (∀ s1 msgs, answer_event s eqid idx order = HandlerResult.err s1 msgs →
      s.correct ≤ s1.correct ∧ s1.correct ≤ s.correct + 1) ∧
    (∀ s1 msgs, timeout_event s tqid order2 = HandlerResult.ok (some s1) msgs →
      s1.correct = s.correct) ∧
    (∀ s1 msgs, timeout_event s tqid order2 = HandlerResult.err s1 msgs →
      s1.correct = s.correct) ∧
    (∀ s1, (send_question s order).1 = some s1 → s1.correct = s.correct) ∧
    (∀ s1, (send_question_direct s order).1 = some s1 → s1.correct = s.correct) ∧
    (start_session s.title s.questions).correct = 0 := by
  refine ⟨?_, ?_, ?_, ?_, ?_, ?_, rfl⟩
  · intro s1 msgs h
    unfold answer_event at h
    split_ifs at h with h1 h2
    · simp only [HandlerResult.ok.injEq, Option.some.injEq] at h
      obtain ⟨h3, -⟩ := h
      cases h3
      refine ⟨le_refl _, by omega, ?_⟩
      constructor
      · intro hc
        omega
      · rintro ⟨hc, -⟩
        exact absurd hc h1
    · rw [not_not] at h1
      split at h
      · simp only [HandlerResult.ok.injEq] at h
        obtain ⟨h3, -⟩ := h
        obtain ⟨-, -, -, -, hc, -, -⟩ := send_question_some_fields h3
        have hc2 : s1.correct = s.correct + 1 := hc
        refine ⟨by omega, by omega, ?_⟩
        simp [hc2, h1, h2]
      · cases h
    · rw [not_not] at h1
      split at h
      · simp only [HandlerResult.ok.injEq] at h
        obtain ⟨h3, -⟩ := h
        obtain ⟨-, -, -, -, hc, -, -⟩ := send_question_some_fields h3
        have hc2 : s1.correct = s.correct := hc
        refine ⟨by omega, by omega, ?_⟩
        constructor
        · intro hcontra
          omega
        · rintro ⟨-, hcontra⟩
          exact absurd hcontra h2
      · cases h
  · intro s1 msgs h
    unfold answer_event at h
    split_ifs at h with h1 h2
    · split at h
      · cases h
      · injection h with hA hB
        subst hA
        exact ⟨Nat.le_succ _, Nat.le_refl _⟩
    · split at h
      · cases h
      · injection h with hA hB
        subst hA
        exact ⟨Nat.le_refl _, Nat.le_succ _⟩
  · intro s1 msgs h
    unfold timeout_event at h
    split_ifs at h with h1
    · simp only [HandlerResult.ok.injEq, Option.some.injEq] at h
      obtain ⟨h3, -⟩ := h
      cases h3
      rfl
    · split at h
      · simp only [HandlerResult.ok.injEq] at h
        obtain ⟨h3, -⟩ := h
        obtain ⟨-, -, -, -, hc, -, -⟩ := send_question_direct_some_fields h3
        exact hc
      · cases h
  · intro s1 msgs h
    unfold timeout_event at h
    split_ifs at h with h1
    · split at h
      · cases h
      · injection h with hA hB
        subst hA
        rfl
  · intro s1 h
    exact (send_question_some_fields h).2.2.2.2.1
  · intro s1 h
    exact (send_question_direct_some_fields h).2.2.2.2.1

/-- C5 witness: a correctly answered question on a concrete live session
increments the score from 0 to 1, and the increment condition holds. -/
theorem C5_score_increments_witness :
    exLive.correct ≤ (1 : Nat) ∧ (1 : Nat) ≤ exLive.correct + 1 ∧
      ((1 : Nat) = exLive.correct + 1 ↔
        (1 : Int) = (exLive.qid : Int) ∧ (0 : Int) = (currentCi exLive : Int)) :=
  (C5_score_increments exLive 1 0 1 [0, 1] [0, 1]).1
    { title := "t",
      questions := [⟨"p", ["x", "y"], 0, ""⟩, ⟨"p2", ["x", "y"], 1, ""⟩],
      i := 1, correct := 1, qid := 2, current := some ⟨["x", "y"], 1⟩ }
    [Msg.correctNotice 'A' "x", Msg.questionMsg "t" 2 2 "p2" ["x", "y"] 2] rfl

/-- C6: the invariant `correctCount ≤ position ≤ len(questions)` holds for a
fresh session and is preserved by every normally-completing operation of the
state machine (presentation on either path, resolve by answer, resolve by
timeout; a finishing resolve destroys the session). -/
theorem C6_session_invariant (t : String) (qs : List Question) (s : Session)
    (eqid idx : Int) (tqid : Nat) (order order2 : List Nat) (hInv : Inv s) :
    Inv (start_session t qs) ∧
    (∀ s1 msgs, answer_event s eqid idx order = HandlerResult.ok (some s1) msgs → Inv s1) ∧
    (∀ s1 msgs, timeout_event s tqid order2 = HandlerResult.ok (some s1) msgs → Inv s1) ∧
    (∀ s1, (send_question s order).1 = some s1 → Inv s1) ∧
    (∀ s1, (send_question_direct s order).1 = some s1 → Inv s1) := by
  obtain ⟨hInv1, hInv2⟩ := hInv
  refine ⟨⟨Nat.le_refl 0, Nat.zero_le _⟩, ?_, ?_, ?_, ?_⟩
  · intro s1 msgs h
    unfold answer_event at h
    split_ifs at h with h1 h2
    · simp only [HandlerResult.ok.injEq, Option.some.injEq] at h
      obtain ⟨h3, -⟩ := h
      cases h3
      exact ⟨hInv1, hInv2⟩
    · split at h
      · simp only [HandlerResult.ok.injEq] at h
        obtain ⟨h3, -⟩ := h
        obtain ⟨hlt, -, hqs, hi, hc, -, -⟩ := send_question_some_fields h3
        have hlt2 : s.i + 1 < s.questions.length := hlt
        have hi2 : s1.i = s.i + 1 := hi
        have hc2 : s1.correct = s.correct + 1 := hc
        have hqs2 : s1.questions.length = s.questions.length := by rw [hqs]
        exact ⟨by omega, by omega⟩
      · cases h
    · split at h
      · simp only [HandlerResult.ok.injEq] at h
        obtain ⟨h3, -⟩ := h
        obtain ⟨hlt, -, hqs, hi, hc, -, -⟩ := send_question_some_fields h3
        have hlt2 : s.i + 1 < s.questions.length := hlt
        have hi2 : s1.i = s.i + 1 := hi
        have hc2 : s1.correct = s.correct := hc
        have hqs2 : s1.questions.length = s.questions.length := by rw [hqs]
        exact ⟨by omega, by omega⟩
      · cases h
  · intro s1 msgs h
    unfold timeout_event at h
    split_ifs at h with h1
    · simp only [HandlerResult.ok.injEq, Option.some.injEq] at h
      obtain ⟨h3, -⟩ := h
      cases h3
      exact ⟨hInv1, hInv2⟩
    · split at h
      · simp only [HandlerResult.ok.injEq] at h
        obtain ⟨h3, -⟩ := h
        obtain ⟨hlt, -, hqs, hi, hc, -, -⟩ := send_question_direct_some_fields h3
        have hlt2 : s.i + 1 < s.questions.length := hlt
        have hi2 : s1.i = s.i + 1 := hi
        have hc2 : s1.correct = s.correct := hc
        have hqs2 : s1.questions.length = s.questions.length := by rw [hqs]
        exact ⟨by omega, by omega⟩
      · cases h
  · intro s1 h
    obtain ⟨hlt, -, hqs, hi, hc, -, -⟩ := send_question_some_fields h
    have hqs2 : s1.questions.length = s.questions.length := by rw [hqs]
    exact ⟨by omega, by omega⟩
  · intro s1 h
    obtain ⟨hlt, -, hqs, hi, hc, -, -⟩ := send_question_direct_some_fields h
    have hqs2 : s1.questions.length = s.questions.length := by rw [hqs]
    exact ⟨by omega, by omega⟩

/-- C6 witness: the invariant established for a fresh session and preserved
across a concrete correctly-answered resolve on a live session. -/
theorem C6_session_invariant_witness :
    Inv (start_session "t" []) ∧
    Inv { title := "t",
          questions := [⟨"p", ["x", "y"], 0, ""⟩, ⟨"p2", ["x", "y"], 1, ""⟩],
          i := 1, correct := 1, qid := 2, current := some ⟨["x", "y"], 1⟩ } :=
  ⟨(C6_session_invariant "t" [] exLive 1 0 1 [0, 1] [0, 1]
      ⟨Nat.le_refl 0, Nat.zero_le 2⟩).1,
   (C6_session_invariant "t" [] exLive 1 0 1 [0, 1] [0, 1]
      ⟨Nat.le_refl 0, Nat.zero_le 2⟩).2.1
     { title := "t",
       questions := [⟨"p", ["x", "y"], 0, ""⟩, ⟨"p2", ["x", "y"], 1, ""⟩],
       i := 1, correct := 1, qid := 2, current := some ⟨["x", "y"], 1⟩ }
     [Msg.correctNotice 'A' "x", Msg.questionMsg "t" 2 2 "p2" ["x", "y"] 2] rfl⟩

theorem presentedQids_append (a b : List Msg) :
    presentedQids (a ++ b) = presentedQids a ++ presentedQids b :=
  List.filterMap_append a b _

theorem answer_event_qid_cases (s : Session) (eqid idx : Int) (order : List Nat) :
    (∃ msgs, answer_event s eqid idx order = HandlerResult.ok (some s) msgs ∧
       presentedQids msgs = []) ∨
    (∃ s1 msgs, answer_event s eqid idx order = HandlerResult.ok (some s1) msgs ∧
       presentedQids msgs = [s.qid + 1] ∧ s1.qid = s.qid + 1) ∨
    (∃ msgs, answer_event s eqid idx order = HandlerResult.ok none msgs ∧
       presentedQids msgs = []) ∨
    (∃ s1 msgs, answer_event s eqid idx order = HandlerResult.err s1 msgs ∧
       presentedQids msgs = [] ∧ s1.qid = s.qid) := by
  unfold answer_event
  split_ifs with h1 h2
  · exact Or.inl ⟨[Msg.staleNotice], rfl, rfl⟩
  · rcases hL : pyIndex lettersList ((currentCi s : Nat) : Int) with - | c
    · exact Or.inr (Or.inr (Or.inr ⟨{ s with correct := s.correct + 1 }, [], rfl, rfl, rfl⟩))
    · by_cases hlt : s.i + 1 < s.questions.length
      · have hsq := send_question_present
          { s with correct := s.correct + 1, i := s.i + 1 } order hlt
        rw [hsq]
        exact Or.inr (Or.inl ⟨_, _, rfl, rfl, rfl⟩)
      · have hsq := send_question_finish
          { s with correct := s.correct + 1, i := s.i + 1 } order
          (Nat.le_of_not_lt hlt)
        rw [hsq]
        exact Or.inr (Or.inr (Or.inl ⟨_, rfl, rfl⟩))
  · rcases hL1 : pyIndex lettersList idx with - | cx
    · exact Or.inr (Or.inr (Or.inr ⟨s, [], rfl, rfl, rfl⟩))
    · rcases hL2 : pyIndex lettersList ((currentCi s : Nat) : Int) with - | cc
      · exact Or.inr (Or.inr (Or.inr ⟨s, [], rfl, rfl, rfl⟩))
      · by_cases hlt : s.i + 1 < s.questions.length
        · have hsq := send_question_present { s with i := s.i + 1 } order hlt
          rw [hsq]
          exact Or.inr (Or.inl ⟨_, _, rfl, rfl, rfl⟩)
        · have hsq := send_question_finish { s with i := s.i + 1 } order
            (Nat.le_of_not_lt hlt)
          rw [hsq]
          exact Or.inr (Or.inr (Or.inl ⟨_, rfl, rfl⟩))

theorem timeout_event_qid_cases (s : Session) (eqid : Nat) (order : List Nat) :
    (∃ msgs, timeout_event s eqid order = HandlerResult.ok (some s) msgs ∧
       presentedQids msgs = []) ∨
    (∃ s1 msgs, timeout_event s eqid order = HandlerResult.ok (some s1) msgs ∧
       presentedQids msgs = [s.qid + 1] ∧ s1.qid = s.qid + 1) ∨
    (∃ msgs, timeout_event s eqid order = HandlerResult.ok none msgs ∧
       presentedQids msgs = []) ∨
    (∃ s1 msgs, timeout_event s eqid order = HandlerResult.err s1 msgs ∧
       presentedQids msgs = [] ∧ s1.qid = s.qid) := by
  unfold timeout_event
  split_ifs with h1
  · exact Or.inl ⟨[], rfl, rfl⟩
  · rcases hL : pyIndex lettersList ((currentCi s : Nat) : Int) with - | c
    · exact Or.inr (Or.inr (Or.inr ⟨s, [], rfl, rfl, rfl⟩))
    · by_cases hlt : s.i + 1 < s.questions.length
      · have hsq := send_question_direct_present { s with i := s.i + 1 } order hlt
        rw [hsq]
        exact Or.inr (Or.inl ⟨_, _, rfl, rfl, rfl⟩)
      · have hsq := send_question_direct_finish { s with i := s.i + 1 } order
          (Nat.le_of_not_lt hlt)
        rw [hsq]
        exact Or.inr (Or.inr (Or.inl ⟨_, rfl, rfl⟩))

theorem stepEvent_qid_cases (s : Session) (e : Event) :
    (presentedQids (stepEvent (some s) e).2 = [] ∧ QidLB (stepEvent (some s) e).1 s.qid) ∨
    (presentedQids (stepEvent (some s) e).2 = [s.qid + 1] ∧
       QidLB (stepEvent (some s) e).1 (s.qid + 1)) := by
  cases e with
  | answer eqid idx order =>
    rcases answer_event_qid_cases s eqid idx order with
      ⟨m, he, hp⟩ | ⟨s1, m, he, hp, hq⟩ | ⟨m, he, hp⟩ | ⟨s1, m, he, hp, hq⟩
    · refine Or.inl ⟨?_, ?_⟩
      · simp [stepEvent, he, hp]
      · intro s2 h2
        simp [stepEvent, he] at h2
        subst h2
        exact Nat.le_refl _
    · refine Or.inr ⟨?_, ?_⟩
      · simp [stepEvent, he, hp]
      · intro s2 h2
        simp [stepEvent, he] at h2
        subst h2
        omega
    · refine Or.inl ⟨?_, ?_⟩
      · simp [stepEvent, he, hp]
      · intro s2 h2
        simp [stepEvent, he] at h2
    · refine Or.inl ⟨?_, ?_⟩
      · simp [stepEvent, he, hp]
      · intro s2 h2
        simp [stepEvent, he] at h2
        subst h2
        omega
  | timeout eqid order =>
    rcases timeout_event_qid_cases s eqid order with
      ⟨m, he, hp⟩ | ⟨s1, m, he, hp, hq⟩ | ⟨m, he, hp⟩ | ⟨s1, m, he, hp, hq⟩
    · refine Or.inl ⟨?_, ?_⟩
      · simp [stepEvent, he, hp]
      · intro s2 h2
        simp [stepEvent, he] at h2
        subst h2
        exact Nat.le_refl _
    · refine Or.inr ⟨?_, ?_⟩
      · simp [stepEvent, he, hp]
      · intro s2 h2
        simp [stepEvent, he] at h2
        subst h2
        omega
    · refine Or.inl ⟨?_, ?_⟩
      · simp [stepEvent, he, hp]
      · intro s2 h2
        simp [stepEvent, he] at h2
    · refine Or.inl ⟨?_, ?_⟩
      · simp [stepEvent, he, hp]
      · intro s2 h2
        simp [stepEvent, he] at h2
        subst h2
        omega

theorem stepEvent_none (e : Event) :
    (stepEvent none e).1 = none ∧ presentedQids (stepEvent none e).2 = [] := by
  cases e with
  | answer eqid idx order => exact ⟨rfl, rfl⟩
  | timeout eqid order => exact ⟨rfl, rfl⟩

theorem run_qid_bound (events : List Event) : ∀ (os : Option Session) (b : Nat),
    QidLB os b →
    (∀ q ∈ presentedQids (run os events).2, b < q) ∧
    List.Pairwise (fun a c => a < c) (presentedQids (run os events).2) := by
  induction events with
  | nil =>
    intro os b hb
    refine ⟨?_, ?_⟩
    · intro q hq
      simp [run, presentedQids] at hq
    · exact List.Pairwise.nil
  | cons e es ih =>
    intro os b hb
    have hrun : run os (e :: es) =
        ((run (stepEvent os e).1 es).1,
          (stepEvent os e).2 ++ (run (stepEvent os e).1 es).2) := rfl
    rw [hrun, presentedQids_append]
    cases os with
    | none =>
      obtain ⟨h1, h2⟩ := stepEvent_none e
      rw [h1, h2]
      obtain ⟨ih1, ih2⟩ := ih none b (fun s hs => by cases hs)
      exact ⟨fun q hq => ih1 q (by simpa using hq), by simpa using ih2⟩
    | some s =>
      have hbs : b ≤ s.qid := hb s rfl
      rcases stepEvent_qid_cases s e with ⟨hp, hlb⟩ | ⟨hp, hlb⟩
      · rw [hp]
        obtain ⟨ih1, ih2⟩ := ih (stepEvent (some s) e).1 s.qid hlb
        refine ⟨?_, by simpa using ih2⟩
        intro q hq
        have := ih1 q (by simpa using hq)
        omega
      · rw [hp, List.singleton_append]
        obtain ⟨ih1, ih2⟩ := ih (stepEvent (some s) e).1 (s.qid + 1) hlb
        constructor
        · intro q hq
          rcases List.mem_cons.1 hq with hq | hq
          · omega
          · have := ih1 q hq
            omega
        · rw [List.pairwise_cons]
          exact ⟨fun q hq => by have := ih1 q hq; omega, ih2⟩

/-- C7: within one session's lifetime the sequence id starts at 0, each
presentation on either path increments it by exactly one, no operation
decreases it, and along any run of resolve events from any live session the
qids carried by the presented questions are strictly increasing — hence no
sequence id is ever assigned to two different presentations. -/
theorem C7_sequence_id (t : String) (qs : List Question) (s : Session)
    (order : List Nat) (s0 : Session) (events : List Event) :
    (start_session t qs).qid = 0 ∧
    (∀ s1, (send_question s order).1 = some s1 → s1.qid = s.qid + 1) ∧
    (∀ s1, (send_question_direct s order).1 = some s1 → s1.qid = s.qid + 1) ∧
    (∀ q ∈ presentedQids (run (some s0) events).2, s0.qid < q) ∧
    List.Pairwise (fun a c => a < c) (presentedQids (run (some s0) events).2) := by
  have hrun := run_qid_bound events (some s0) s0.qid
    (fun s2 h2 => by cases h2; exact Nat.le_refl _)
  exact ⟨rfl,
    fun s1 h => (send_question_some_fields h).2.2.2.2.2.1,
    fun s1 h => (send_question_direct_some_fields h).2.2.2.2.2.1,
    hrun.1, hrun.2⟩

/-- C7 witness: a fresh session has qid 0; a concrete presentation bumps the
qid from 1 to 2; and a concrete two-event run presents strictly increasing
qids. -/
theorem C7_sequence_id_witness :
    (start_session "t" []).qid = 0 ∧
    ({ title := "t",
       questions := [⟨"p", ["x", "y"], 0, ""⟩, ⟨"p2", ["x", "y"], 1, ""⟩],
       i := 0, correct := 0, qid := 2,
       current := some ⟨["x", "y"], 0⟩ } : Session).qid = exLive.qid + 1 ∧
    List.Pairwise (fun a c => a < c)
      (presentedQids (run (some exLive)
        [Event.answer 1 0 [0, 1], Event.timeout 2 [0, 1]]).2) :=
  ⟨(C7_sequence_id "t" [] exLive [0, 1] exLive
      [Event.answer 1 0 [0, 1], Event.timeout 2 [0, 1]]).1,
   (C7_sequence_id "t" [] exLive [0, 1] exLive
      [Event.answer 1 0 [0, 1], Event.timeout 2 [0, 1]]).2.1
     { title := "t",
       questions := [⟨"p", ["x", "y"], 0, ""⟩, ⟨"p2", ["x", "y"], 1, ""⟩],
       i := 0, correct := 0, qid := 2, current := some ⟨["x", "y"], 0⟩ } rfl,
   (C7_sequence_id "t" [] exLive [0, 1] exLive
      [Event.answer 1 0 [0, 1], Event.timeout 2 [0, 1]]).2.2.2.2⟩

theorem pick_random_eq (questions : List Question) (n : Nat) (sel : List Nat) :
    pick_random questions n sel = sel.map (fun j => questions.getD j default) := by
  unfold pick_random sample
  split <;> rfl

/-- C8: under the `random.sample` contract realizing the selection, final
mode returns `min 20 |pool|` questions drawn without replacement (the result
is a sub-permutation of the pool, so no pool position is used twice), and a
pool of at most 20 questions is returned whole, merely reordered. -/
theorem C8_final_mode_sample (pool : List Question) (sel : List Nat)
    (h : SampleSel pool (min FINAL_N pool.length) sel) :
    (pick_random pool FINAL_N sel).length = min FINAL_N pool.length ∧
    (pick_random pool FINAL_N sel).Subperm pool ∧
    (pool.length ≤ FINAL_N → (pick_random pool FINAL_N sel).Perm pool) := by
  obtain ⟨hnd, hlen, hbound⟩ := h
  rw [pick_random_eq]
  have hsub : sel ⊆ List.range pool.length := fun j hj => List.mem_range.2 (hbound j hj)
  have hsp : sel.Subperm (List.range pool.length) := List.subperm_of_subset hnd hsub
  refine ⟨by simpa using hlen, ?_, ?_⟩
  · obtain ⟨l, hlp, hls⟩ := hsp
    refine ⟨l.map (fun j => pool.getD j default), hlp.map _, ?_⟩
    have := hls.map (fun j => pool.getD j default)
    rwa [map_getD_range] at this
  · intro hle
    have hlen2 : (List.range pool.length).length ≤ sel.length := by
      simp only [List.length_range]
      omega
    exact perm_map_getD default (hsp.perm_of_length_le hlen2)

/-- C8 witness: the theorem applied to a concrete three-question pool and
the selection `[2, 0, 1]`: three questions, a sub-permutation of the pool,
and (since 3 ≤ 20) a permutation of the whole pool. -/
theorem C8_final_mode_sample_witness :
    (pick_random exPool FINAL_N [2, 0, 1]).length = min FINAL_N exPool.length ∧
    (pick_random exPool FINAL_N [2, 0, 1]).Subperm exPool ∧
    (exPool.length ≤ FINAL_N → (pick_random exPool FINAL_N [2, 0, 1]).Perm exPool) :=
  C8_final_mode_sample exPool [2, 0, 1] (by decide)

end QuizBot
